import Mathlib

/-!
Verification of the sparse volumetric engine (OpenVDB-derived "agents" library)
against its natural-language specification.

The development shallowly embeds the parts of the library exercised by the
claims:

* the morphology engine (dilation/erosion of the active-voxel set with
  FACE / FACE+EDGE / FACE+EDGE+VERTEX connectivity, and the tile policies of
  `dilateActiveValues`) — the morphology implementation itself is not part of
  the provided sources (only its unit tests are), so these operations are
  modelled from the specification text, faithfully to its wording;
* the value filter (`agents/Filter.h`): separable box passes, mean, Gaussian,
  median, offset, and the mask-range configuration — translated directly from
  the source;
* the level-set tracker resize contract (modelled from the specification, the
  tracker source is likewise absent);
* point deletion by group membership (`points/PointDelete.h`).

Voxel coordinates are triples of integers; voxel values are modelled as exact
rationals (the C++ sources use floating point; all tolerance claims are
discharged by exact equalities of the rational model).
-/

namespace OpenVDB

/-- Integer voxel coordinate, the `Coord` triple (x, y, z). -/
abbrev C3 : Type := ℤ × ℤ × ℤ

/-- Manhattan length of a coordinate offset, the quantity
`Abs(d[0]) + Abs(d[1]) + Abs(d[2])` used by the dilation unit tests. -/
def manh (c : C3) : ℕ := c.1.natAbs + c.2.1.natAbs + c.2.2.natAbs

/-- Chebyshev length of a coordinate offset (max of component magnitudes). -/
def cheb (c : C3) : ℕ := max c.1.natAbs (max c.2.1.natAbs c.2.2.natAbs)

/-- Modelled from the spec: the neighbor connectivity choices of the
morphology engine, "one of FACE (6-neighbor), FACE+EDGE (18-neighbor),
FACE+EDGE+VERTEX (26-neighbor)" (the source header `agents/Morphology.h` is
not among the provided files; only its unit tests are). -/
inductive NN : Type
  | FACE
  | FACE_EDGE
  | FACE_EDGE_VERTEX
deriving DecidableEq

/-- The 6 face-neighbor offsets (±1 along each axis). -/
def faceOffsets : List C3 :=
  [(1,0,0), (-1,0,0), (0,1,0), (0,-1,0), (0,0,1), (0,0,-1)]

/-- The 12 edge-neighbor offsets (±1 along exactly two axes). -/
def edgeOffsets : List C3 :=
  [(1,1,0), (1,-1,0), (-1,1,0), (-1,-1,0),
   (1,0,1), (1,0,-1), (-1,0,1), (-1,0,-1),
   (0,1,1), (0,1,-1), (0,-1,1), (0,-1,-1)]

/-- The 8 vertex-neighbor offsets (±1 along all three axes). -/
def vertexOffsets : List C3 :=
  [(1,1,1), (1,1,-1), (1,-1,1), (1,-1,-1),
   (-1,1,1), (-1,1,-1), (-1,-1,1), (-1,-1,-1)]

/-- Modelled from the spec: the neighbor-offset table of a connectivity:
"face: 3 shifts [±1 along each axis]; edge: adds 12 diagonal shifts; vertex:
adds 8 corner shifts", i.e. 6, 18, or 26 offsets. -/
def NN.offsets : NN → List C3
  | .FACE => faceOffsets
  | .FACE_EDGE => faceOffsets ++ edgeOffsets
  | .FACE_EDGE_VERTEX => faceOffsets ++ edgeOffsets ++ vertexOffsets

/-- Modelled from the spec: one radius-1 dilation step of the active set —
"OR-ing the leaf's active mask with itself shifted by ±1 along each axis
required by the connectivity set", across leaf boundaries; i.e. the union of
the active set with all its one-offset translates. -/
def dilateStep (nn : NN) (S : Finset C3) : Finset C3 :=
  S ∪ S.biUnion (fun s => (nn.offsets.map (fun o => s + o)).toFinset)

/-- Modelled from the spec: `dilateVoxels` with a radius — "per iteration,
radius=1 step, repeated `radius` times for the general case". -/
def dilateVoxels (nn : NN) (r : ℕ) (S : Finset C3) : Finset C3 :=
  (dilateStep nn)^[r] S

/-- Modelled from the spec: one radius-1 erosion step — "a voxel remains
active only if all its neighbors under the chosen connectivity were active
in the input generation", reading a snapshot of the previous generation. -/
def erodeStep (nn : NN) (S : Finset C3) : Finset C3 :=
  S.filter (fun s => ∀ o ∈ nn.offsets, s + o ∈ S)

/-- Modelled from the spec: `erodeVoxels` with a radius, iterated like
dilation. -/
def erodeVoxels (nn : NN) (r : ℕ) (S : Finset C3) : Finset C3 :=
  (erodeStep nn)^[r] S

lemma mem_dilateStep {nn : NN} {S : Finset C3} {c : C3} :
    c ∈ dilateStep nn S ↔ c ∈ S ∨ ∃ s ∈ S, ∃ o ∈ nn.offsets, c = s + o := by
  simp only [dilateStep, Finset.mem_union, Finset.mem_biUnion, List.mem_toFinset,
    List.mem_map]
  constructor
  · rintro (h | ⟨s, hs, o, ho, rfl⟩)
    · exact Or.inl h
    · exact Or.inr ⟨s, hs, o, ho, rfl⟩
  · rintro (h | ⟨s, hs, o, ho, rfl⟩)
    · exact Or.inl h
    · exact Or.inr ⟨s, hs, o, ho, rfl⟩

lemma mem_erodeStep {nn : NN} {S : Finset C3} {c : C3} :
    c ∈ erodeStep nn S ↔ c ∈ S ∧ ∀ o ∈ nn.offsets, c + o ∈ S := by
  simp [erodeStep]

lemma mem_dilateStep_singleton {nn : NN} {a c : C3} :
    c ∈ dilateStep nn {a} ↔ c - a = 0 ∨ c - a ∈ nn.offsets := by
  rw [mem_dilateStep]
  constructor
  · rintro (h | ⟨s, hs, o, ho, rfl⟩)
    · left
      simp only [Finset.mem_singleton] at h
      simp [h]
    · right
      simp only [Finset.mem_singleton] at hs
      subst hs
      simpa using ho
  · rintro (h | h)
    · left
      simp only [Finset.mem_singleton]
      exact sub_eq_zero.mp h
    · right
      exact ⟨a, Finset.mem_singleton_self a, c - a, h, by abel⟩

/-- Translation equivariance of one dilation step. -/
lemma dilateStep_image {nn : NN} (a : C3) (S : Finset C3) :
    dilateStep nn (S.image (fun c => a + c)) = (dilateStep nn S).image (fun c => a + c) := by
  ext c
  rw [mem_dilateStep]
  simp only [Finset.mem_image, mem_dilateStep]
  constructor
  · rintro (⟨s, hs, rfl⟩ | ⟨s, ⟨t, ht, rfl⟩, o, ho, rfl⟩)
    · exact ⟨s, Or.inl hs, rfl⟩
    · exact ⟨t + o, Or.inr ⟨t, ht, o, ho, rfl⟩, (add_assoc a t o).symm⟩
  · rintro ⟨d, (hd | ⟨s, hs, o, ho, rfl⟩), rfl⟩
    · exact Or.inl ⟨d, hd, rfl⟩
    · exact Or.inr ⟨a + s, ⟨s, hs, rfl⟩, o, ho, (add_assoc a s o).symm⟩

/-- Translation equivariance of radius-r dilation. -/
lemma dilateVoxels_image (nn : NN) (r : ℕ) (a : C3) (S : Finset C3) :
    dilateVoxels nn r (S.image (fun c => a + c))
      = (dilateVoxels nn r S).image (fun c => a + c) := by
  induction r with
  | zero => rfl
  | succ n ih =>
      unfold dilateVoxels at *
      rw [Function.iterate_succ_apply', Function.iterate_succ_apply', ih, dilateStep_image]

lemma singleton_eq_image_add (a : C3) :
    ({a} : Finset C3) = ({((0:ℤ),(0:ℤ),(0:ℤ))} : Finset C3).image (fun c => a + c) := by
  simp [Finset.image_singleton]

/-- The integer-lattice Manhattan ball of radius n (as an explicit finite set). -/
def ball (n : ℕ) : Finset C3 :=
  ((Finset.Icc (-(n:ℤ)) n) ×ˢ ((Finset.Icc (-(n:ℤ)) n) ×ˢ (Finset.Icc (-(n:ℤ)) n))).filter
    (fun c => manh c ≤ n)

lemma mem_ball {n : ℕ} {c : C3} : c ∈ ball n ↔ manh c ≤ n := by
  obtain ⟨x, y, z⟩ := c
  simp only [ball, Finset.mem_filter, Finset.mem_product, Finset.mem_Icc, manh]
  omega

/-- One FACE dilation step turns the Manhattan ball of radius n into the ball
of radius n+1. -/
lemma dilateStep_FACE_ball (n : ℕ) : dilateStep .FACE (ball n) = ball (n + 1) := by
  ext c
  simp only [mem_dilateStep, mem_ball]
  constructor
  · rintro (h | ⟨s, hs, o, ho, rfl⟩)
    · obtain ⟨x, y, z⟩ := c
      simp only [manh] at h ⊢
      omega
    · obtain ⟨x, y, z⟩ := s
      simp only [manh] at hs
      simp only [NN.offsets] at ho
      fin_cases ho <;> simp only [Prod.mk_add_mk, manh] <;> omega
  · intro h
    obtain ⟨x, y, z⟩ := c
    simp only [manh] at h ⊢
    by_cases h0 : x.natAbs + y.natAbs + z.natAbs ≤ n
    · exact Or.inl h0
    · right
      rcases lt_trichotomy x 0 with hx | hx | hx
      · exact ⟨(x + 1, y, z), by simp only [manh]; omega,
          (-1, 0, 0), by simp [NN.offsets, faceOffsets],
          by simp only [Prod.mk_add_mk, Prod.mk.injEq]; omega⟩
      · rcases lt_trichotomy y 0 with hy | hy | hy
        · exact ⟨(x, y + 1, z), by simp only [manh]; omega,
            (0, -1, 0), by simp [NN.offsets, faceOffsets],
            by simp only [Prod.mk_add_mk, Prod.mk.injEq]; omega⟩
        · rcases lt_trichotomy z 0 with hz | hz | hz
          · exact ⟨(x, y, z + 1), by simp only [manh]; omega,
              (0, 0, -1), by simp [NN.offsets, faceOffsets],
              by simp only [Prod.mk_add_mk, Prod.mk.injEq]; omega⟩
          · exact absurd (by omega) h0
          · exact ⟨(x, y, z - 1), by simp only [manh]; omega,
              (0, 0, 1), by simp [NN.offsets, faceOffsets],
              by simp only [Prod.mk_add_mk, Prod.mk.injEq]; omega⟩
        · exact ⟨(x, y - 1, z), by simp only [manh]; omega,
            (0, 1, 0), by simp [NN.offsets, faceOffsets],
            by simp only [Prod.mk_add_mk, Prod.mk.injEq]; omega⟩
      · exact ⟨(x - 1, y, z), by simp only [manh]; omega,
          (1, 0, 0), by simp [NN.offsets, faceOffsets],
          by simp only [Prod.mk_add_mk, Prod.mk.injEq]; omega⟩

lemma dilateVoxels_one (nn : NN) (S : Finset C3) :
    dilateVoxels nn 1 S = dilateStep nn S := by
  simp [dilateVoxels]

lemma dilateStep_singleton_card (nn : NN) (a : C3) :
    (dilateStep nn {a}).card = (dilateStep nn {((0:ℤ),(0:ℤ),(0:ℤ))}).card := by
  rw [singleton_eq_image_add a, dilateStep_image,
    Finset.card_image_of_injective _ (add_right_injective a)]

lemma face_nbhd_char (d : C3) :
    (d = 0 ∨ d ∈ NN.offsets .FACE) ↔ cheb d ≤ 1 ∧ manh d ≤ 1 := by
  obtain ⟨x, y, z⟩ := d
  simp only [NN.offsets, faceOffsets, cheb, manh, List.mem_cons, List.not_mem_nil, or_false,
    Prod.mk.injEq, Prod.mk_eq_zero]
  omega

lemma face_edge_nbhd_char (d : C3) :
    (d = 0 ∨ d ∈ NN.offsets .FACE_EDGE) ↔ cheb d ≤ 1 ∧ manh d ≤ 2 := by
  constructor
  · rintro (rfl | h)
    · decide
    · simp only [NN.offsets] at h
      fin_cases h <;> decide
  · rintro ⟨h1, h2⟩
    obtain ⟨x, y, z⟩ := d
    simp only [cheb] at h1
    have hx1 : -1 ≤ x := by omega
    have hx2 : x ≤ 1 := by omega
    have hy1 : -1 ≤ y := by omega
    have hy2 : y ≤ 1 := by omega
    have hz1 : -1 ≤ z := by omega
    have hz2 : z ≤ 1 := by omega
    interval_cases x <;> interval_cases y <;> interval_cases z <;> revert h2 <;> decide

lemma face_edge_vertex_nbhd_char (d : C3) :
    (d = 0 ∨ d ∈ NN.offsets .FACE_EDGE_VERTEX) ↔ cheb d ≤ 1 ∧ manh d ≤ 3 := by
  constructor
  · rintro (rfl | h)
    · decide
    · simp only [NN.offsets] at h
      fin_cases h <;> decide
  · rintro ⟨h1, h2⟩
    obtain ⟨x, y, z⟩ := d
    simp only [cheb] at h1
    have hx1 : -1 ≤ x := by omega
    have hx2 : x ≤ 1 := by omega
    have hy1 : -1 ≤ y := by omega
    have hy2 : y ≤ 1 := by omega
    have hz1 : -1 ≤ z := by omega
    have hz2 : z ≤ 1 := by omega
    interval_cases x <;> interval_cases y <;> interval_cases z <;> revert h2 <;> decide

/-- Repeated FACE dilation of the origin voxel sweeps out Manhattan balls. -/
lemma dilateVoxels_FACE_origin (n : ℕ) :
    dilateVoxels .FACE n {((0:ℤ),(0:ℤ),(0:ℤ))} = ball n := by
  induction n with
  | zero =>
      ext c
      obtain ⟨x, y, z⟩ := c
      simp only [dilateVoxels, Function.iterate_zero_apply, Finset.mem_singleton, mem_ball,
        manh, Prod.mk.injEq]
      omega
  | succ n ih =>
      unfold dilateVoxels at *
      rw [Function.iterate_succ_apply', ih, dilateStep_FACE_ball]

/-- The cardinality of the radius-n Manhattan ball written as a double sum
over its x and y slices (each slice contributes its z-extent), which is far
cheaper to evaluate than the ball itself. -/
def sliceCount (n : ℕ) : ℕ :=
  ∑ x ∈ Finset.Icc (-(n:ℤ)) n, ∑ y ∈ Finset.Icc (-(n:ℤ)) n,
    (if x.natAbs + y.natAbs ≤ n then 2 * (n - x.natAbs - y.natAbs) + 1 else 0)

lemma card_ball_eq (n : ℕ) : (ball n).card = sliceCount n := by
  simp only [ball, sliceCount, Finset.card_filter, Finset.sum_product, manh]
  refine Finset.sum_congr rfl (fun x hx => Finset.sum_congr rfl (fun y hy => ?_))
  by_cases hxy : x.natAbs + y.natAbs ≤ n
  · rw [if_pos hxy, ← Finset.card_filter]
    have hf : (Finset.Icc (-(n:ℤ)) n).filter (fun z => x.natAbs + y.natAbs + z.natAbs ≤ n)
        = Finset.Icc (-(((n - x.natAbs - y.natAbs) : ℕ):ℤ)) ((n - x.natAbs - y.natAbs : ℕ)) := by
      ext z
      simp only [Finset.mem_filter, Finset.mem_Icc]
      omega
    rw [hf, Int.card_Icc]
    omega
  · rw [if_neg hxy]
    refine Finset.sum_eq_zero (fun z hz => ?_)
    rw [if_neg (by omega)]

/-- Claim C1: for a tree with exactly one active voxel, one dilation step with
FACE connectivity yields exactly 7 active voxels, FACE+EDGE yields 19, and
FACE+EDGE+VERTEX yields 27, and the resulting active set is exactly the
3x3x3-block neighborhood of the seed whose Manhattan distance from the seed
is at most 1, 2, 3 respectively. -/
theorem C1_single_voxel_dilation (a : C3) :
    ((dilateVoxels .FACE 1 {a}).card = 7
      ∧ ∀ c, c ∈ dilateVoxels .FACE 1 {a} ↔ cheb (c - a) ≤ 1 ∧ manh (c - a) ≤ 1)
    ∧ ((dilateVoxels .FACE_EDGE 1 {a}).card = 19
      ∧ ∀ c, c ∈ dilateVoxels .FACE_EDGE 1 {a} ↔ cheb (c - a) ≤ 1 ∧ manh (c - a) ≤ 2)
    ∧ ((dilateVoxels .FACE_EDGE_VERTEX 1 {a}).card = 27
      ∧ ∀ c, c ∈ dilateVoxels .FACE_EDGE_VERTEX 1 {a} ↔ cheb (c - a) ≤ 1 ∧ manh (c - a) ≤ 3) := by
  refine ⟨⟨?_, ?_⟩, ⟨?_, ?_⟩, ⟨?_, ?_⟩⟩
  · rw [dilateVoxels_one, dilateStep_singleton_card]
    decide
  · intro c
    rw [dilateVoxels_one, mem_dilateStep_singleton]
    exact face_nbhd_char (c - a)
  · rw [dilateVoxels_one, dilateStep_singleton_card]
    decide
  · intro c
    rw [dilateVoxels_one, mem_dilateStep_singleton]
    exact face_edge_nbhd_char (c - a)
  · rw [dilateVoxels_one, dilateStep_singleton_card]
    decide
  · intro c
    rw [dilateVoxels_one, mem_dilateStep_singleton]
    exact face_edge_vertex_nbhd_char (c - a)

lemma zeroC3 : ((0:ℤ),(0:ℤ),(0:ℤ)) = (0 : C3) := rfl

lemma card_dilateVoxels_singleton (nn : NN) (r : ℕ) (a : C3) :
    (dilateVoxels nn r {a}).card
      = (dilateVoxels nn r {((0:ℤ),(0:ℤ),(0:ℤ))}).card := by
  rw [singleton_eq_image_add a, dilateVoxels_image,
    Finset.card_image_of_injective _ (add_right_injective a)]

set_option maxRecDepth 1000000 in
/-- Claim C4: starting from a tree with a single active voxel, the active
voxel counts after 0 through 10 FACE-connectivity dilation steps are exactly
1, 7, 25, 63, 129, 231, 377, 575, 833, 1159, 1561; and dilating in a single
call of radius r+s agrees with dilating by r and then by s (one step at a
time agrees with the equivalent radius). -/
theorem C4_repeated_dilation_sequence (a : C3) :
    (List.range 11).map (fun n => (dilateVoxels .FACE n {a}).card)
      = [1, 7, 25, 63, 129, 231, 377, 575, 833, 1159, 1561]
    ∧ ∀ r s : ℕ, ∀ S : Finset C3,
        dilateVoxels .FACE (r + s) S = dilateVoxels .FACE s (dilateVoxels .FACE r S) := by
  constructor
  · have hcard : ∀ n : ℕ, (dilateVoxels .FACE n {a}).card = sliceCount n := by
      intro n
      rw [card_dilateVoxels_singleton, dilateVoxels_FACE_origin, card_ball_eq]
    simp only [hcard]
    decide
  · intro r s S
    unfold dilateVoxels
    rw [Nat.add_comm, Function.iterate_add_apply]

/-- Inner product of integer offsets, used to separate a translated copy of a
finite set from itself. -/
def dotp (u v : C3) : ℤ := u.1 * v.1 + u.2.1 * v.2.1 + u.2.2 * v.2.2

lemma dotp_add (e u v : C3) : dotp e (u + v) = dotp e u + dotp e v := by
  obtain ⟨a, b, c⟩ := e
  obtain ⟨p, q, r⟩ := u
  obtain ⟨s, t, w⟩ := v
  simp only [dotp, Prod.mk_add_mk]
  ring

lemma dotp_self_pos {e : C3} (h : e ≠ 0) : 0 < dotp e e := by
  obtain ⟨x, y, z⟩ := e
  have hne : ¬(x = 0 ∧ y = 0 ∧ z = 0) := by
    rintro ⟨rfl, rfl, rfl⟩
    exact h rfl
  simp only [dotp]
  by_cases hx : x = 0
  · by_cases hy : y = 0
    · have hz : z ≠ 0 := by tauto
      have := mul_self_pos.mpr hz
      nlinarith [mul_self_nonneg x, mul_self_nonneg y]
    · have := mul_self_pos.mpr hy
      nlinarith [mul_self_nonneg x, mul_self_nonneg z]
  · have := mul_self_pos.mpr hx
    nlinarith [mul_self_nonneg y, mul_self_nonneg z]

lemma subset_dilateStep (nn : NN) (S : Finset C3) : S ⊆ dilateStep nn S :=
  Finset.subset_union_left

lemma zero_mem_dilateVoxels_origin (nn : NN) (r : ℕ) :
    ((0:ℤ),(0:ℤ),(0:ℤ)) ∈ dilateVoxels nn r {((0:ℤ),(0:ℤ),(0:ℤ))} := by
  induction r with
  | zero => simp [dilateVoxels]
  | succ n ih =>
      unfold dilateVoxels at *
      rw [Function.iterate_succ_apply']
      exact subset_dilateStep nn _ ih

/-- Erosion iterated r times keeps exactly the voxels whose whole radius-r
neighborhood (the r-fold dilation of the origin) lies in the input set. -/
lemma mem_erodeVoxels_iff (nn : NN) (r : ℕ) (D : Finset C3) (c : C3) :
    c ∈ erodeVoxels nn r D
      ↔ ∀ d ∈ dilateVoxels nn r {((0:ℤ),(0:ℤ),(0:ℤ))}, c + d ∈ D := by
  induction r generalizing c with
  | zero =>
      simp only [erodeVoxels, dilateVoxels, Function.iterate_zero_apply, Finset.mem_singleton]
      constructor
      · intro h d hd
        subst hd
        rw [zeroC3, add_zero]
        exact h
      · intro h
        have := h _ rfl
        rwa [zeroC3, add_zero] at this
  | succ n ih =>
      unfold erodeVoxels dilateVoxels at *
      rw [Function.iterate_succ_apply', Function.iterate_succ_apply', mem_erodeStep]
      constructor
      · rintro ⟨h1, h2⟩ e he
        rw [mem_dilateStep] at he
        rcases he with he | ⟨s, hs, o, ho, rfl⟩
        · exact (ih c).mp h1 e he
        · have hco := (ih (c + o)).mp (h2 o ho) s hs
          have heq : c + o + s = c + (s + o) := by
            rw [add_assoc, add_comm o s]
          rwa [heq] at hco
      · intro h
        refine ⟨(ih c).mpr (fun d hd => h d (subset_dilateStep nn _ hd)), ?_⟩
        intro o ho
        refine (ih (c + o)).mpr (fun d hd => ?_)
        have hmem : d + o ∈ dilateStep nn ((dilateStep nn)^[n] {((0:ℤ),(0:ℤ),(0:ℤ))}) := by
          rw [mem_dilateStep]
          exact Or.inr ⟨d, hd, o, ho, rfl⟩
        have := h (d + o) hmem
        have heq : c + (d + o) = c + o + d := by
          rw [add_assoc, add_comm o d]
        rwa [heq] at this

/-- Claim C3 is refuted on six pairwise non-adjacent active voxels: dilating
once and then eroding once with FACE connectivity activates a seventh voxel
(the origin), so the active set and its count do not return to their
pre-dilation state even though the input is an isolated point set. -/
def isolatedSix : Finset C3 :=
  {(1,0,0), (-1,0,0), (0,2,0), (0,-2,0), (0,0,2), (0,0,-2)}

/-- Adjacency of two voxels under a connectivity: one is reached from the
other by a single neighbor offset. -/
def adjacentNN (nn : NN) (p q : C3) : Prop := q - p ∈ nn.offsets

instance (nn : NN) (p q : C3) : Decidable (adjacentNN nn p q) :=
  inferInstanceAs (Decidable (q - p ∈ nn.offsets))

set_option maxRecDepth 100000 in
/-- Claim C3 counterexample: a set of six active voxels, pairwise
non-adjacent under FACE connectivity, for which one FACE dilation followed by
one FACE erosion does not return the active set (or its count) to its
pre-dilation state: the origin voxel becomes and stays active. -/
theorem C3_counterexample :
    (∀ p ∈ isolatedSix, ∀ q ∈ isolatedSix, p ≠ q → ¬ adjacentNN .FACE p q)
    ∧ erodeVoxels .FACE 1 (dilateVoxels .FACE 1 isolatedSix) ≠ isolatedSix
    ∧ (erodeVoxels .FACE 1 (dilateVoxels .FACE 1 isolatedSix)).card ≠ isolatedSix.card := by
  refine ⟨by decide, by decide, by decide⟩

/-- Claim C3 (amended): for a tree whose active set is one single voxel,
dilating by any radius r and then eroding by the same radius r with the same
connectivity (FACE, FACE+EDGE, or FACE+EDGE+VERTEX) returns the active set
exactly to the original single voxel. -/
theorem C3_amended_dilate_erode_single (nn : NN) (r : ℕ) (a : C3) :
    erodeVoxels nn r (dilateVoxels nn r {a}) = {a} := by
  have himg : dilateVoxels nn r {a}
      = (dilateVoxels nn r {((0:ℤ),(0:ℤ),(0:ℤ))}).image (fun c => a + c) := by
    rw [singleton_eq_image_add a, dilateVoxels_image]
  ext c
  rw [mem_erodeVoxels_iff, himg, Finset.mem_singleton]
  constructor
  · intro h
    by_contra hne
    have hshift : ∀ d ∈ dilateVoxels nn r {((0:ℤ),(0:ℤ),(0:ℤ))},
        (c - a) + d ∈ dilateVoxels nn r {((0:ℤ),(0:ℤ),(0:ℤ))} := by
      intro d hd
      obtain ⟨m, hm, hme⟩ := Finset.mem_image.mp (h d hd)
      have hmd : m = (c - a) + d := by
        obtain ⟨a1, a2, a3⟩ := a
        obtain ⟨m1, m2, m3⟩ := m
        obtain ⟨c1, c2, c3⟩ := c
        obtain ⟨d1, d2, d3⟩ := d
        simp only [Prod.mk_add_mk, Prod.mk_sub_mk, Prod.mk.injEq] at hme ⊢
        omega
      rwa [hmd] at hm
    have hE : c - a ≠ 0 := sub_ne_zero.mpr hne
    obtain ⟨m, hm, hmax⟩ :=
      Finset.exists_max_image (dilateVoxels nn r {((0:ℤ),(0:ℤ),(0:ℤ))})
        (fun v => dotp (c - a) v) ⟨_, zero_mem_dilateVoxels_origin nn r⟩
    have h1 := hmax _ (hshift m hm)
    rw [dotp_add] at h1
    have h2 := dotp_self_pos hE
    omega
  · rintro rfl
    intro d hd
    exact Finset.mem_image.mpr ⟨d, hd, rfl⟩

/-- The voxel region covered by a leaf-sized (8x8x8) tile with origin t:
the axis-aligned block from t to t+7 (leafDim = 8 as in the tests). -/
def tileCube (t : C3) : Finset C3 :=
  (Finset.Icc t.1 (t.1 + 7)) ×ˢ
    ((Finset.Icc t.2.1 (t.2.1 + 7)) ×ˢ (Finset.Icc t.2.2 (t.2.2 + 7)))

lemma mem_tileCube {t c : C3} :
    c ∈ tileCube t ↔ t.1 ≤ c.1 ∧ c.1 ≤ t.1 + 7 ∧ t.2.1 ≤ c.2.1 ∧ c.2.1 ≤ t.2.1 + 7
      ∧ t.2.2 ≤ c.2.2 ∧ c.2.2 ≤ t.2.2 + 7 := by
  simp only [tileCube, Finset.mem_product, Finset.mem_Icc]
  tauto

/-- Modelled from the spec: a two-level abstraction of the sparse tree
sufficient for the tile-policy claim — the set of active leaf-sized tiles
(by their origins) together with the individually stored active voxels of
its leaf nodes. -/
structure VdbTree where
  tiles : Finset C3
  voxels : Finset C3

/-- Origin of the leaf node containing a voxel: each coordinate rounded down
to a multiple of the leaf dimension 8 (the c & ~7 of the source). -/
def leafOrigin (c : C3) : C3 :=
  (c.1 - c.1 % 8, c.2.1 - c.2.1 % 8, c.2.2 - c.2.2 % 8)

/-- All active voxels of the tree: stored leaf voxels plus tile-covered cells. -/
def VdbTree.activeVoxels (t : VdbTree) : Finset C3 :=
  t.voxels ∪ t.tiles.biUnion tileCube

/-- The tree's activeVoxelCount(). -/
def VdbTree.activeVoxelCount (t : VdbTree) : ℕ := t.activeVoxels.card

/-- The tree's leafCount(): number of distinct leaf nodes holding stored
voxels. -/
def VdbTree.leafCount (t : VdbTree) : ℕ := (t.voxels.image leafOrigin).card

/-- The tree's activeTileCount(). -/
def VdbTree.activeTileCount (t : VdbTree) : ℕ := t.tiles.card

/-- Modelled from the spec: the tile policies of `dilateActiveValues`:
"{IGNORE_TILES, EXPAND_TILES, PRESERVE_TILES} governing how active tiles
participate". -/
inductive TilePolicy : Type
  | IGNORE_TILES
  | EXPAND_TILES
  | PRESERVE_TILES

/-- Modelled from the spec: one-voxel `dilateActiveValues` under a tile
policy — "IGNORE_TILES leaves active tiles untouched (dilation does not
expand across/from a tile face); EXPAND_TILES converts affected tiles into
fully active leaf regions (voxelizing ...) before continuing; PRESERVE_TILES
dilates only the boundary shell into adjacent space while leaving the tile's
interior representation as a tile." -/
def dilateActiveValues (nn : NN) (p : TilePolicy) (t : VdbTree) : VdbTree :=
  match p with
  | .IGNORE_TILES => ⟨t.tiles, dilateStep nn t.voxels⟩
  | .EXPAND_TILES => ⟨∅, dilateStep nn (t.voxels ∪ t.tiles.biUnion tileCube)⟩
  | .PRESERVE_TILES =>
      ⟨t.tiles, dilateStep nn (t.voxels ∪ t.tiles.biUnion tileCube)
        \ t.tiles.biUnion tileCube⟩

/-- The tree of the tile-policy scenario: a single active leaf-sized tile
spanning [0,0,0]-[7,7,7] and no stored leaf voxels. -/
def tileTree : VdbTree := ⟨{((0:ℤ),(0:ℤ),(0:ℤ))}, ∅⟩

/-- The one-voxel FACE dilation of the unit tile block: the block together
with its six face slabs. -/
def tileSlab : Finset C3 :=
  ((Finset.Icc (-1:ℤ) 8) ×ˢ ((Finset.Icc (-1:ℤ) 8) ×ˢ (Finset.Icc (-1:ℤ) 8))).filter
    (fun c =>
      (0 ≤ c.1 ∧ c.1 ≤ 7 ∧ 0 ≤ c.2.1 ∧ c.2.1 ≤ 7 ∧ 0 ≤ c.2.2 ∧ c.2.2 ≤ 7)
      ∨ ((c.1 = -1 ∨ c.1 = 8) ∧ 0 ≤ c.2.1 ∧ c.2.1 ≤ 7 ∧ 0 ≤ c.2.2 ∧ c.2.2 ≤ 7)
      ∨ (0 ≤ c.1 ∧ c.1 ≤ 7 ∧ (c.2.1 = -1 ∨ c.2.1 = 8) ∧ 0 ≤ c.2.2 ∧ c.2.2 ≤ 7)
      ∨ (0 ≤ c.1 ∧ c.1 ≤ 7 ∧ 0 ≤ c.2.1 ∧ c.2.1 ≤ 7 ∧ (c.2.2 = -1 ∨ c.2.2 = 8)))

lemma mem_tileSlab {c : C3} :
    c ∈ tileSlab ↔
      (0 ≤ c.1 ∧ c.1 ≤ 7 ∧ 0 ≤ c.2.1 ∧ c.2.1 ≤ 7 ∧ 0 ≤ c.2.2 ∧ c.2.2 ≤ 7)
      ∨ ((c.1 = -1 ∨ c.1 = 8) ∧ 0 ≤ c.2.1 ∧ c.2.1 ≤ 7 ∧ 0 ≤ c.2.2 ∧ c.2.2 ≤ 7)
      ∨ (0 ≤ c.1 ∧ c.1 ≤ 7 ∧ (c.2.1 = -1 ∨ c.2.1 = 8) ∧ 0 ≤ c.2.2 ∧ c.2.2 ≤ 7)
      ∨ (0 ≤ c.1 ∧ c.1 ≤ 7 ∧ 0 ≤ c.2.1 ∧ c.2.1 ≤ 7 ∧ (c.2.2 = -1 ∨ c.2.2 = 8)) := by
  obtain ⟨x, y, z⟩ := c
  simp only [tileSlab, Finset.mem_filter, Finset.mem_product, Finset.mem_Icc]
  omega

/-- One FACE dilation step of the unit tile block is the block plus its six
face slabs. -/
lemma dilateStep_tileCube :
    dilateStep .FACE (tileCube ((0:ℤ),(0:ℤ),(0:ℤ))) = tileSlab := by
  ext c
  simp only [mem_dilateStep, mem_tileCube, mem_tileSlab]
  constructor
  · rintro (h | ⟨s, hs, o, ho, rfl⟩)
    · obtain ⟨x, y, z⟩ := c
      simp only at h ⊢
      omega
    · obtain ⟨x, y, z⟩ := s
      simp only at hs
      simp only [NN.offsets] at ho
      fin_cases ho <;> simp only [Prod.mk_add_mk] <;> omega
  · intro h
    obtain ⟨x, y, z⟩ := c
    simp only at h ⊢
    rcases h with h | h | h | h
    · exact Or.inl (by omega)
    · rcases h.1 with h1 | h1
      · exact Or.inr ⟨(x + 1, y, z), by simp only; omega, (-1, 0, 0),
          by simp [NN.offsets, faceOffsets],
          by simp only [Prod.mk_add_mk, Prod.mk.injEq]; omega⟩
      · exact Or.inr ⟨(x - 1, y, z), by simp only; omega, (1, 0, 0),
          by simp [NN.offsets, faceOffsets],
          by simp only [Prod.mk_add_mk, Prod.mk.injEq]; omega⟩
    · rcases h.2.2.1 with h1 | h1
      · exact Or.inr ⟨(x, y + 1, z), by simp only; omega, (0, -1, 0),
          by simp [NN.offsets, faceOffsets],
          by simp only [Prod.mk_add_mk, Prod.mk.injEq]; omega⟩
      · exact Or.inr ⟨(x, y - 1, z), by simp only; omega, (0, 1, 0),
          by simp [NN.offsets, faceOffsets],
          by simp only [Prod.mk_add_mk, Prod.mk.injEq]; omega⟩
    · rcases h.2.2.2.2 with h1 | h1
      · exact Or.inr ⟨(x, y, z + 1), by simp only; omega, (0, 0, -1),
          by simp [NN.offsets, faceOffsets],
          by simp only [Prod.mk_add_mk, Prod.mk.injEq]; omega⟩
      · exact Or.inr ⟨(x, y, z - 1), by simp only; omega, (0, 0, 1),
          by simp [NN.offsets, faceOffsets],
          by simp only [Prod.mk_add_mk, Prod.mk.injEq]; omega⟩

lemma tileCube_subset_tileSlab : tileCube ((0:ℤ),(0:ℤ),(0:ℤ)) ⊆ tileSlab := by
  intro c hc
  rw [mem_tileCube] at hc
  rw [mem_tileSlab]
  obtain ⟨x, y, z⟩ := c
  simp only at hc ⊢
  omega

/-- The leaf origins of the dilated block: the center leaf plus the six
face-neighbor leaves. -/
lemma image_leafOrigin_tileSlab :
    tileSlab.image leafOrigin =
      ({((0:ℤ),(0:ℤ),(0:ℤ)), (-8,0,0), (8,0,0), (0,-8,0), (0,8,0), (0,0,-8), (0,0,8)}
        : Finset C3) := by
  ext c
  simp only [Finset.mem_image, Finset.mem_insert, Finset.mem_singleton]
  constructor
  · rintro ⟨⟨x, y, z⟩, hv, rfl⟩
    rw [mem_tileSlab] at hv
    simp only at hv
    simp only [leafOrigin, Prod.mk.injEq]
    rcases hv with ⟨h1, h2, h3, h4, h5, h6⟩ | ⟨hx, h3, h4, h5, h6⟩
      | ⟨h1, h2, hy, h5, h6⟩ | ⟨h1, h2, h3, h4, hz⟩
    · exact Or.inl ⟨by omega, by omega, by omega⟩
    · rcases hx with rfl | rfl
      · exact Or.inr (Or.inl ⟨by decide, by omega, by omega⟩)
      · exact Or.inr (Or.inr (Or.inl ⟨by decide, by omega, by omega⟩))
    · rcases hy with rfl | rfl
      · exact Or.inr (Or.inr (Or.inr (Or.inl ⟨by omega, by decide, by omega⟩)))
      · exact Or.inr (Or.inr (Or.inr (Or.inr (Or.inl ⟨by omega, by decide, by omega⟩))))
    · rcases hz with rfl | rfl
      · exact Or.inr (Or.inr (Or.inr (Or.inr (Or.inr (Or.inl ⟨by omega, by omega, by decide⟩)))))
      · exact Or.inr (Or.inr (Or.inr (Or.inr (Or.inr (Or.inr ⟨by omega, by omega, by decide⟩)))))
  · intro h
    rcases h with rfl | rfl | rfl | rfl | rfl | rfl | rfl
    · exact ⟨((0:ℤ),(0:ℤ),(0:ℤ)), by rw [mem_tileSlab]; decide, by decide⟩
    · exact ⟨((-1:ℤ),(0:ℤ),(0:ℤ)), by rw [mem_tileSlab]; decide, by decide⟩
    · exact ⟨((8:ℤ),(0:ℤ),(0:ℤ)), by rw [mem_tileSlab]; decide, by decide⟩
    · exact ⟨((0:ℤ),(-1:ℤ),(0:ℤ)), by rw [mem_tileSlab]; decide, by decide⟩
    · exact ⟨((0:ℤ),(8:ℤ),(0:ℤ)), by rw [mem_tileSlab]; decide, by decide⟩
    · exact ⟨((0:ℤ),(0:ℤ),(-1:ℤ)), by rw [mem_tileSlab]; decide, by decide⟩
    · exact ⟨((0:ℤ),(0:ℤ),(8:ℤ)), by rw [mem_tileSlab]; decide, by decide⟩

/-- The leaf origins of the boundary shell alone: the six face-neighbor
leaves (not the center leaf, which stays a tile under PRESERVE_TILES). -/
lemma image_leafOrigin_shell :
    (tileSlab \ tileCube ((0:ℤ),(0:ℤ),(0:ℤ))).image leafOrigin =
      ({(-8,0,0), (8,0,0), (0,-8,0), (0,8,0), (0,0,-8), (0,0,8)} : Finset C3) := by
  ext c
  simp only [Finset.mem_image, Finset.mem_sdiff, Finset.mem_insert, Finset.mem_singleton]
  constructor
  · rintro ⟨⟨x, y, z⟩, ⟨hv, hnc⟩, rfl⟩
    rw [mem_tileSlab] at hv
    rw [mem_tileCube] at hnc
    simp only at hv hnc
    simp only [leafOrigin, Prod.mk.injEq]
    rcases hv with ⟨h1, h2, h3, h4, h5, h6⟩ | ⟨hx, h3, h4, h5, h6⟩
      | ⟨h1, h2, hy, h5, h6⟩ | ⟨h1, h2, h3, h4, hz⟩
    · exact absurd (by omega) hnc
    · rcases hx with rfl | rfl
      · exact Or.inl ⟨by decide, by omega, by omega⟩
      · exact Or.inr (Or.inl ⟨by decide, by omega, by omega⟩)
    · rcases hy with rfl | rfl
      · exact Or.inr (Or.inr (Or.inl ⟨by omega, by decide, by omega⟩))
      · exact Or.inr (Or.inr (Or.inr (Or.inl ⟨by omega, by decide, by omega⟩)))
    · rcases hz with rfl | rfl
      · exact Or.inr (Or.inr (Or.inr (Or.inr (Or.inl ⟨by omega, by omega, by decide⟩))))
      · exact Or.inr (Or.inr (Or.inr (Or.inr (Or.inr ⟨by omega, by omega, by decide⟩))))
  · intro h
    rcases h with rfl | rfl | rfl | rfl | rfl | rfl
    · exact ⟨((-1:ℤ),(0:ℤ),(0:ℤ)),
        ⟨by rw [mem_tileSlab]; decide, by rw [mem_tileCube]; decide⟩, by decide⟩
    · exact ⟨((8:ℤ),(0:ℤ),(0:ℤ)),
        ⟨by rw [mem_tileSlab]; decide, by rw [mem_tileCube]; decide⟩, by decide⟩
    · exact ⟨((0:ℤ),(-1:ℤ),(0:ℤ)),
        ⟨by rw [mem_tileSlab]; decide, by rw [mem_tileCube]; decide⟩, by decide⟩
    · exact ⟨((0:ℤ),(8:ℤ),(0:ℤ)),
        ⟨by rw [mem_tileSlab]; decide, by rw [mem_tileCube]; decide⟩, by decide⟩
    · exact ⟨((0:ℤ),(0:ℤ),(-1:ℤ)),
        ⟨by rw [mem_tileSlab]; decide, by rw [mem_tileCube]; decide⟩, by decide⟩
    · exact ⟨((0:ℤ),(0:ℤ),(8:ℤ)),
        ⟨by rw [mem_tileSlab]; decide, by rw [mem_tileCube]; decide⟩, by decide⟩

lemma dilateStep_empty (nn : NN) : dilateStep nn (∅ : Finset C3) = ∅ := by
  simp [dilateStep]

set_option maxRecDepth 1000000 in
lemma tileSlab_card : tileSlab.card = 896 := by decide

set_option maxRecDepth 1000000 in
lemma tileCube_zero_card : (tileCube ((0:ℤ),(0:ℤ),(0:ℤ))).card = 512 := by decide

lemma dav_ignore : dilateActiveValues .FACE .IGNORE_TILES tileTree = tileTree := by
  simp [dilateActiveValues, tileTree, dilateStep_empty]

lemma dav_expand :
    dilateActiveValues .FACE .EXPAND_TILES tileTree = ⟨∅, tileSlab⟩ := by
  show VdbTree.mk ∅
      (dilateStep .FACE (∅ ∪ Finset.biUnion {((0:ℤ),(0:ℤ),(0:ℤ))} tileCube)) = _
  rw [Finset.empty_union, Finset.singleton_biUnion, dilateStep_tileCube]

lemma dav_preserve :
    dilateActiveValues .FACE .PRESERVE_TILES tileTree
      = ⟨{((0:ℤ),(0:ℤ),(0:ℤ))}, tileSlab \ tileCube ((0:ℤ),(0:ℤ),(0:ℤ))⟩ := by
  show VdbTree.mk {((0:ℤ),(0:ℤ),(0:ℤ))}
      (dilateStep .FACE (∅ ∪ Finset.biUnion {((0:ℤ),(0:ℤ),(0:ℤ))} tileCube)
        \ Finset.biUnion {((0:ℤ),(0:ℤ),(0:ℤ))} tileCube) = _
  rw [Finset.empty_union, Finset.singleton_biUnion, dilateStep_tileCube]

/-- Claim C2: for a tree whose only content is a single active leaf-sized
tile filling [0,0,0]-[7,7,7] (512 active voxels, no leaves, one active
tile), one-voxel FACE dilateActiveValues behaves per tile policy: with
IGNORE_TILES the tree (hence each count) is unchanged; with EXPAND_TILES the
result has 7 leaves, 896 = (8+6)*8*8 active voxels and no active tile; with
PRESERVE_TILES the result has 6 new leaves, 896 active voxels, and the
original tile remains a tile. -/
theorem C2_tile_policies :
    (tileTree.leafCount = 0 ∧ tileTree.activeVoxelCount = 512
      ∧ tileTree.activeTileCount = 1)
    ∧ (dilateActiveValues .FACE .IGNORE_TILES tileTree = tileTree
      ∧ (dilateActiveValues .FACE .IGNORE_TILES tileTree).leafCount = tileTree.leafCount
      ∧ (dilateActiveValues .FACE .IGNORE_TILES tileTree).activeVoxelCount
          = tileTree.activeVoxelCount
      ∧ (dilateActiveValues .FACE .IGNORE_TILES tileTree).activeTileCount
          = tileTree.activeTileCount)
    ∧ ((dilateActiveValues .FACE .EXPAND_TILES tileTree).leafCount = 7
      ∧ (dilateActiveValues .FACE .EXPAND_TILES tileTree).activeVoxelCount = 896
      ∧ (dilateActiveValues .FACE .EXPAND_TILES tileTree).activeTileCount = 0)
    ∧ ((dilateActiveValues .FACE .PRESERVE_TILES tileTree).leafCount = 6
      ∧ (dilateActiveValues .FACE .PRESERVE_TILES tileTree).activeVoxelCount = 896
      ∧ (dilateActiveValues .FACE .PRESERVE_TILES tileTree).activeTileCount = 1) := by
  refine ⟨⟨?_, ?_, ?_⟩, ⟨dav_ignore, ?_, ?_, ?_⟩, ⟨?_, ?_, ?_⟩, ⟨?_, ?_, ?_⟩⟩
  · simp [VdbTree.leafCount, tileTree]
  · simp only [VdbTree.activeVoxelCount, VdbTree.activeVoxels, tileTree,
      Finset.empty_union, Finset.singleton_biUnion]
    exact tileCube_zero_card
  · simp [VdbTree.activeTileCount, tileTree]
  · rw [dav_ignore]
  · rw [dav_ignore]
  · rw [dav_ignore]
  · rw [dav_expand]
    simp only [VdbTree.leafCount]
    rw [image_leafOrigin_tileSlab]
    decide
  · rw [dav_expand]
    simp only [VdbTree.activeVoxelCount, VdbTree.activeVoxels, Finset.biUnion_empty,
      Finset.union_empty]
    exact tileSlab_card
  · rw [dav_expand]
    simp [VdbTree.activeTileCount]
  · rw [dav_preserve]
    simp only [VdbTree.leafCount]
    rw [image_leafOrigin_shell]
    decide
  · rw [dav_preserve]
    simp only [VdbTree.activeVoxelCount, VdbTree.activeVoxels, Finset.singleton_biUnion]
    rw [Finset.sdiff_union_of_subset tileCube_subset_tileSlab]
    exact tileSlab_card
  · rw [dav_preserve]
    simp [VdbTree.activeTileCount]

/-! ### The value filter of `agents/Filter.h`

A grid is modelled as its active-voxel set (the topology) plus the stored
value at every coordinate (the accessor `acc.getValue` of the source reads a
value at any coordinate, background where never set). Values are exact
rationals standing in for the source's floating-point values. A filter pass
(`doBox` / `doMedian` and the subsequent `swapLeafBuffer` of `cook`) reads
every sample from the pre-pass buffer and writes only at the positions of
the active-value iterator into the scratch buffer, which then replaces the
value buffer: the pass is a simultaneous update of the active voxels. -/

/-- Sparse grid state seen by the filter: active topology plus stored values. -/
structure SGrid where
  active : Finset C3
  values : C3 → ℚ

/-- The alpha-mask configuration of a filter call: `none` models the null
mask pointer; `some alpha` models a mask grid whose test at a voxel either
fails (voxel not written) or yields the blend pair (a, b) produced by
`AlphaMask::operator()`. -/
abbrev MaskCfg : Type := Option (C3 → Option (ℚ × ℚ))

/-- Offset of k steps along coordinate component 0, 1 or 2 (x, y, z). -/
def axisOffset (axis : Fin 3) (k : ℤ) : C3 :=
  match axis with
  | 0 => (k, 0, 0)
  | 1 => (0, k, 0)
  | 2 => (0, 0, k)

/-- Source `Filter::Avg<Axis>::operator()`: sums the 2w+1 samples obtained by
varying component `Axis` of the coordinate from -w to +w, then multiplies by
`frac = 1/(2w+1)`. -/
def Avg (g : SGrid) (axis : Fin 3) (w : ℕ) (c : C3) : ℚ :=
  (((List.range (2 * w + 1)).map
    (fun i => g.values (c + axisOffset axis ((i : ℤ) - (w : ℤ))))).sum) * (1 / (2 * w + 1))

/-- One cooked box pass: `Filter::doBox` over the whole leaf range followed
by the buffer swap of `Filter::cook`. Every active voxel (that passes the
alpha test, when a mask is set) receives the 1-D average read from the
pre-pass values; all other stored values are unchanged. -/
def boxPass (mask : MaskCfg) (axis : Fin 3) (w : ℕ) (g : SGrid) : SGrid :=
  ⟨g.active, fun c =>
    if c ∈ g.active then
      match mask with
      | none => Avg g axis w c
      | some alpha =>
          match alpha c with
          | none => g.values c
          | some ab => ab.2 * g.values c + ab.1 * Avg g axis w c
    else g.values c⟩

/-- Source `Filter::doBoxX` is `doBox<Avg<0>>`: a box pass along component 0 (x). -/
def Filter.doBoxX (mask : MaskCfg) (w : ℕ) (g : SGrid) : SGrid := boxPass mask 0 w g

/-- Source `Filter::doBoxZ` is `doBox<Avg<1>>`: a box pass along component 1, i.e.
the method named doBoxZ averages along the y axis in the source. -/
def Filter.doBoxZ (mask : MaskCfg) (w : ℕ) (g : SGrid) : SGrid := boxPass mask 1 w g

/-- Source `Filter::doBoxY` is `doBox<Avg<2>>`: a box pass along component 2, i.e.
the method named doBoxY averages along the z axis in the source. -/
def Filter.doBoxY (mask : MaskCfg) (w : ℕ) (g : SGrid) : SGrid := boxPass mask 2 w g

/-- The iteration loop of `Filter::mean`: each iteration cooks doBoxX, then
doBoxY, then doBoxZ. -/
def Filter.meanLoop (mask : MaskCfg) (w : ℕ) : ℕ → SGrid → SGrid
  | 0, g => g
  | n + 1, g =>
      Filter.meanLoop mask w n
        (Filter.doBoxZ mask w (Filter.doBoxY mask w (Filter.doBoxX mask w g)))

/-- Source `Filter::mean(width, iterations, mask)` with `w = max(1, width)`. -/
def Filter.mean (mask : MaskCfg) (width : ℤ) (iterations : ℕ) (g : SGrid) : SGrid :=
  Filter.meanLoop mask (max 1 width).toNat iterations g

/-- The inner loop of `Filter::gaussian`: for n = 0..3, cook doBoxX, doBoxY,
doBoxZ. -/
def Filter.gaussInner (mask : MaskCfg) (w : ℕ) : ℕ → SGrid → SGrid
  | 0, g => g
  | n + 1, g =>
      Filter.gaussInner mask w n
        (Filter.doBoxZ mask w (Filter.doBoxY mask w (Filter.doBoxX mask w g)))

/-- The outer iteration loop of `Filter::gaussian`. -/
def Filter.gaussLoop (mask : MaskCfg) (w : ℕ) : ℕ → SGrid → SGrid
  | 0, g => g
  | n + 1, g => Filter.gaussLoop mask w n (Filter.gaussInner mask w 4 g)

/-- Source `Filter::gaussian(width, iterations, mask)` with `w = max(1, width)`. -/
def Filter.gaussian (mask : MaskCfg) (width : ℤ) (iterations : ℕ) (g : SGrid) : SGrid :=
  Filter.gaussLoop mask (max 1 width).toNat iterations g

/-- Modelled from the spec: the median of a neighborhood value list — "the
source's median filter defines median via sorting the full neighborhood and
taking index (N-1)/2" (the `DenseStencil::median` implementation in
`math/Stencils.h` is not among the provided files). -/
def medianOf (l : List ℚ) : ℚ :=
  (l.insertionSort (fun a b => a ≤ b)).getD ((l.length - 1) / 2) 0

/-- The (2w+1)^3 offsets of the dense median stencil. -/
def denseOffsets (w : ℕ) : List C3 :=
  (List.range (2 * w + 1)).flatMap (fun i =>
    (List.range (2 * w + 1)).flatMap (fun j =>
      (List.range (2 * w + 1)).map (fun k =>
        (((i : ℤ) - w, (j : ℤ) - w, (k : ℤ) - w) : C3))))

/-- One cooked median pass: `Filter::doMedian` over the whole leaf range
followed by the buffer swap of `Filter::cook`. -/
def Filter.doMedian (mask : MaskCfg) (w : ℕ) (g : SGrid) : SGrid :=
  ⟨g.active, fun c =>
    if c ∈ g.active then
      match mask with
      | none => medianOf ((denseOffsets w).map (fun o => g.values (c + o)))
      | some alpha =>
          match alpha c with
          | none => g.values c
          | some ab =>
              ab.2 * g.values c
                + ab.1 * medianOf ((denseOffsets w).map (fun o => g.values (c + o)))
    else g.values c⟩

/-- The iteration loop of `Filter::median`. -/
def Filter.medianLoop (mask : MaskCfg) (w : ℕ) : ℕ → SGrid → SGrid
  | 0, g => g
  | n + 1, g => Filter.medianLoop mask w n (Filter.doMedian mask w g)

/-- Source `Filter::median(width, iterations, mask)` with `w = max(1, width)`. -/
def Filter.median (mask : MaskCfg) (width : ℤ) (iterations : ℕ) (g : SGrid) : SGrid :=
  Filter.medianLoop mask (max 1 width).toNat iterations g

/-- Source `Filter::doOffset`: adds the constant to every active voxel in place
(blended as value + a*offset when a mask is set and its test passes). -/
def Filter.doOffset (mask : MaskCfg) (v : ℚ) (g : SGrid) : SGrid :=
  ⟨g.active, fun c =>
    if c ∈ g.active then
      match mask with
      | none => g.values c + v
      | some alpha =>
          match alpha c with
          | none => g.values c
          | some ab => g.values c + ab.1 * v
    else g.values c⟩

/-- Source `Filter::offset(value, mask)`: a single doOffset task over all leaves. -/
def Filter.offset (mask : MaskCfg) (v : ℚ) (g : SGrid) : SGrid :=
  Filter.doOffset mask v g

/-- The mask-range configuration of a Filter (mMinMask, mMaxMask). -/
structure FilterConfig where
  minMask : ℚ
  maxMask : ℚ

/-- Source `Filter::setMaskRange(min, max)`: "if (!(min < max)) OPENVDB_THROW
(ValueError, ...)", else assign both fields. The thrown error is modelled as
`Except.error`; the assignment happens only after the check. -/
def Filter.setMaskRange (mn mx : ℚ) (s : FilterConfig) : Except String FilterConfig :=
  if ¬ (mn < mx) then Except.error "Invalid mask range (expects min < max)"
  else Except.ok { minMask := mn, maxMask := mx }

/-- The configuration visible to the caller after a setMaskRange call: on
error the exception propagates and the previous configuration is kept. -/
def Filter.setMaskRangeRun (mn mx : ℚ) (s : FilterConfig) : FilterConfig :=
  match Filter.setMaskRange mn mx s with
  | .ok s2 => s2
  | .error _ => s

/-- One mean iteration as the source executes it: a box pass along component
0 (doBoxX), then along component 2 (the method named doBoxY, bound to
Avg of component 2, i.e. z), then along component 1 (the method named
doBoxZ, bound to Avg of component 1, i.e. y). -/
def passXZY (mask : MaskCfg) (w : ℕ) (g : SGrid) : SGrid :=
  boxPass mask 1 w (boxPass mask 2 w (boxPass mask 0 w g))

/-- One mean iteration in the axis order asserted by the specification
sentence: a box pass along x (component 0), then along y (component 1),
then along z (component 2). -/
def passXYZ (mask : MaskCfg) (w : ℕ) (g : SGrid) : SGrid :=
  boxPass mask 2 w (boxPass mask 1 w (boxPass mask 0 w g))

lemma meanLoop_eq_iterate (mask : MaskCfg) (w : ℕ) (n : ℕ) (g : SGrid) :
    Filter.meanLoop mask w n g = (passXZY mask w)^[n] g := by
  induction n generalizing g with
  | zero => rfl
  | succ k ih =>
      show Filter.meanLoop mask w k (passXZY mask w g) = _
      rw [ih (passXZY mask w g)]
      exact (Function.iterate_succ_apply (passXZY mask w) k g).symm

lemma gaussLoop_eq_iterate (mask : MaskCfg) (w : ℕ) (n : ℕ) (g : SGrid) :
    Filter.gaussLoop mask w n g = (passXZY mask w)^[4 * n] g := by
  induction n generalizing g with
  | zero => rfl
  | succ k ih =>
      show Filter.gaussLoop mask w k (Filter.gaussInner mask w 4 g) = _
      rw [ih (Filter.gaussInner mask w 4 g),
        show Filter.gaussInner mask w 4 g = (passXZY mask w)^[4] g from rfl,
        show 4 * (k + 1) = 4 * k + 4 from by ring,
        Function.iterate_add_apply]

/-- The grid refuting the claimed x-y-z pass order of Filter::mean: three
active voxels at (0,0,0), (0,1,0), (0,1,1) with value 27 at the first and 0
elsewhere, background 0. -/
def xyzCexGrid : SGrid :=
  ⟨{((0:ℤ),(0:ℤ),(0:ℤ)), ((0:ℤ),(1:ℤ),(0:ℤ)), ((0:ℤ),(1:ℤ),(1:ℤ))},
   fun c => if c = ((0:ℤ),(0:ℤ),(0:ℤ)) then 27 else 0⟩

/-- Claim C5 counterexample: one iteration of Filter::mean (width 1, no
mask) is not a box pass along x, then y, then z: on this grid the two
produce different values at the active voxel (0,1,1) (0 versus 1). In the
source, doBoxY is bound to Avg of component 2 and doBoxZ to Avg of component
1, so the mean iteration actually averages along x, then z, then y. -/
theorem C5_counterexample :
    (Filter.mean none 1 1 xyzCexGrid).values ((0:ℤ),(1:ℤ),(1:ℤ)) = 0
    ∧ (passXYZ none 1 xyzCexGrid).values ((0:ℤ),(1:ℤ),(1:ℤ)) = 1
    ∧ Filter.mean none 1 1 xyzCexGrid ≠ passXYZ none 1 xyzCexGrid := by
  have h0 : (Filter.mean none 1 1 xyzCexGrid).values ((0:ℤ),(1:ℤ),(1:ℤ)) = 0 := by
    norm_num [Filter.mean, Filter.meanLoop, Filter.doBoxX, Filter.doBoxY, Filter.doBoxZ,
      boxPass, Avg, axisOffset, xyzCexGrid, List.range_succ, Finset.mem_insert, Prod.ext_iff]
  have h1 : (passXYZ none 1 xyzCexGrid).values ((0:ℤ),(1:ℤ),(1:ℤ)) = 1 := by
    norm_num [passXYZ, boxPass, Avg, axisOffset, xyzCexGrid, List.range_succ,
      Finset.mem_insert, Prod.ext_iff]
  refine ⟨h0, h1, fun h => ?_⟩
  have h2 := congrArg (fun s => s.values ((0:ℤ),(1:ℤ),(1:ℤ))) h
  simp only at h2
  rw [h0, h1] at h2
  exact absurd h2 (by norm_num)

/-- Claim C5 (amended): each call to Filter::mean(width, iterations, mask)
performs, per iteration, exactly 3 sequential separable 1-D box passes —
along x, then z, then y (the methods are invoked in the order doBoxX,
doBoxY, doBoxZ, but doBoxY averages along component 2 and doBoxZ along
component 1) — each averaging 2*max(1,width)+1 samples along its axis; and
Filter::gaussian is exactly 4 such sequential mean iterations per iteration.
Each pass reads the pre-pass buffer and writes the active voxels of the
swapped-in scratch buffer, leaving the topology unchanged. -/
theorem C5_amended_mean_gaussian_pass_structure
    (mask : MaskCfg) (width : ℤ) (n : ℕ) (g : SGrid) :
    Filter.mean mask width n g = (passXZY mask (max 1 width).toNat)^[n] g
    ∧ Filter.gaussian mask width n g = (passXZY mask (max 1 width).toNat)^[4 * n] g
    ∧ ∀ axis : Fin 3, ∀ w : ℕ, (boxPass mask axis w g).active = g.active :=
  ⟨meanLoop_eq_iterate mask (max 1 width).toNat n g,
   gaussLoop_eq_iterate mask (max 1 width).toNat n g,
   fun _ _ => rfl⟩

/-- One parallel_for task of Filter::offset: the doOffset body restricted to
the leaves of one sub-range of the leaf sequence, identified by the set R of
origins of the leaves it covers (null-mask path). -/
def doOffsetOnRange (v : ℚ) (R : Finset C3) (g : SGrid) : SGrid :=
  ⟨g.active, fun c =>
    if c ∈ g.active ∧ leafOrigin c ∈ R then g.values c + v else g.values c⟩

/-- Grain-size ≥ 1 execution of Filter::offset: the leaf range is split into
sub-ranges, each processed by one task; the tasks touch disjoint leaves
(single writer per leaf). -/
def offsetParallel (v : ℚ) (parts : List (Finset C3)) (g : SGrid) : SGrid :=
  parts.foldl (fun h R => doOffsetOnRange v R h) g

lemma offsetParallel_active (v : ℚ) (parts : List (Finset C3)) (g : SGrid) :
    (offsetParallel v parts g).active = g.active := by
  induction parts generalizing g with
  | nil => rfl
  | cons R rest ih => exact ih (doOffsetOnRange v R g)

lemma offsetParallel_values (v : ℚ) (parts : List (Finset C3)) (g : SGrid) (c : C3)
    (hdisj : List.Pairwise (fun R T => ∀ x ∈ R, x ∉ T) parts) :
    (offsetParallel v parts g).values c =
      if c ∈ g.active ∧ ∃ R ∈ parts, leafOrigin c ∈ R then g.values c + v
      else g.values c := by
  induction parts generalizing g with
  | nil => simp [offsetParallel]
  | cons R rest ih =>
      obtain ⟨hR, hrest⟩ := List.pairwise_cons.mp hdisj
      show (offsetParallel v rest (doOffsetOnRange v R g)).values c = _
      rw [ih (doOffsetOnRange v R g) hrest]
      by_cases hA : c ∈ g.active
      · by_cases hRm : leafOrigin c ∈ R
        · have hex : ¬ ∃ T ∈ rest, leafOrigin c ∈ T := by
            rintro ⟨T, hT, hmem⟩
            exact hR T hT _ hRm hmem
          have hex2 : ∃ T ∈ R :: rest, leafOrigin c ∈ T :=
            ⟨R, List.mem_cons_self R rest, hRm⟩
          simp [doOffsetOnRange, hA, hRm, hex, hex2]
        · by_cases hexr : ∃ T ∈ rest, leafOrigin c ∈ T
          · have hex2 : ∃ T ∈ R :: rest, leafOrigin c ∈ T := by
              obtain ⟨T, hT, hmem⟩ := hexr
              exact ⟨T, List.mem_cons_of_mem R hT, hmem⟩
            simp [doOffsetOnRange, hA, hRm, hexr, hex2]
          · have hex2 : ¬ ∃ T ∈ R :: rest, leafOrigin c ∈ T := by
              rintro ⟨T, hT, hmem⟩
              rcases List.mem_cons.mp hT with rfl | hT2
              · exact hRm hmem
              · exact hexr ⟨T, hT2, hmem⟩
            simp [doOffsetOnRange, hA, hRm, hexr, hex2]
      · simp [doOffsetOnRange, hA]

/-- Claim C6: Filter::offset(+v) followed by Filter::offset(-v) reproduces
the original value at every voxel exactly (hence within the 1e-4 tolerance;
values are modelled as exact rationals) with the topology unchanged, and the
parallel path (grain size ≥ 1: the leaf range split into disjoint covering
sub-ranges) agrees with the serial path (grain size 0) at every voxel. -/
theorem C6_offset_roundtrip_grain_independent (v : ℚ) (g : SGrid)
    (parts : List (Finset C3)) (c : C3)
    (hdisj : List.Pairwise (fun R T => ∀ x ∈ R, x ∉ T) parts)
    (hcover : ∀ d ∈ g.active, ∃ R ∈ parts, leafOrigin d ∈ R) :
    (Filter.offset none (-v) (Filter.offset none v g)).values c = g.values c
    ∧ (Filter.offset none (-v) (Filter.offset none v g)).active = g.active
    ∧ (offsetParallel v parts g).values c = (Filter.offset none v g).values c
    ∧ (offsetParallel v parts g).active = (Filter.offset none v g).active := by
  refine ⟨?_, rfl, ?_, offsetParallel_active v parts g⟩
  · by_cases hA : c ∈ g.active
    · simp [Filter.offset, Filter.doOffset, hA]
    · simp [Filter.offset, Filter.doOffset, hA]
  · rw [offsetParallel_values v parts g c hdisj]
    by_cases hA : c ∈ g.active
    · have hc := hcover c hA
      simp [Filter.offset, Filter.doOffset, hA, hc]
    · simp [Filter.offset, Filter.doOffset, hA]

/-- Witness grid for the filter claims: two active voxels in two different
leaf nodes, value 5 at the origin and background 0. -/
def offsetWitGrid : SGrid :=
  ⟨{((0:ℤ),(0:ℤ),(0:ℤ)), ((9:ℤ),(0:ℤ),(0:ℤ))},
   fun c => if c = ((0:ℤ),(0:ℤ),(0:ℤ)) then 5 else 0⟩

/-- Witness split of the leaf range into two disjoint sub-ranges. -/
def offsetWitParts : List (Finset C3) :=
  [{((0:ℤ),(0:ℤ),(0:ℤ))}, {((8:ℤ),(0:ℤ),(0:ℤ))}]

/-- Witness for C6 at offset value 2.34 = 117/50 and voxel (0,0,0). -/
theorem C6_offset_witness :
    List.Pairwise (fun R T => ∀ x ∈ R, x ∉ T) offsetWitParts
    ∧ (∀ d ∈ offsetWitGrid.active, ∃ R ∈ offsetWitParts, leafOrigin d ∈ R)
    ∧ ((Filter.offset none (-(117/50 : ℚ))
          (Filter.offset none (117/50) offsetWitGrid)).values ((0:ℤ),(0:ℤ),(0:ℤ))
        = offsetWitGrid.values ((0:ℤ),(0:ℤ),(0:ℤ))
      ∧ (Filter.offset none (-(117/50 : ℚ))
          (Filter.offset none (117/50) offsetWitGrid)).active = offsetWitGrid.active
      ∧ (offsetParallel (117/50) offsetWitParts offsetWitGrid).values ((0:ℤ),(0:ℤ),(0:ℤ))
        = (Filter.offset none (117/50) offsetWitGrid).values ((0:ℤ),(0:ℤ),(0:ℤ))
      ∧ (offsetParallel (117/50) offsetWitParts offsetWitGrid).active
        = (Filter.offset none (117/50) offsetWitGrid).active) :=
  ⟨by decide, by decide,
    C6_offset_roundtrip_grain_independent (117/50) offsetWitGrid offsetWitParts
      ((0:ℤ),(0:ℤ),(0:ℤ)) (by decide) (by decide)⟩

/-- Claim C9: Filter::setMaskRange(min, max) requires min < max: when
min < max it sets the mask range to [min, max]; otherwise it raises the
ValueError to the caller and the previously configured mask range is kept
unchanged (never silently corrected). -/
theorem C9_setMaskRange_validation (mn mx : ℚ) (s : FilterConfig) :
    Filter.setMaskRange mn mx s
      = (if mn < mx then Except.ok { minMask := mn, maxMask := mx }
         else Except.error "Invalid mask range (expects min < max)")
    ∧ Filter.setMaskRangeRun mn mx s
      = (if mn < mx then { minMask := mn, maxMask := mx } else s) := by
  by_cases h : mn < mx <;>
    simp [Filter.setMaskRange, Filter.setMaskRangeRun, h]

lemma boxPass_values_of_notMem {mask : MaskCfg} {axis : Fin 3} {w : ℕ}
    {g : SGrid} {c : C3} (h : c ∉ g.active) :
    (boxPass mask axis w g).values c = g.values c := by
  simp only [boxPass]
  rw [if_neg h]

lemma doMedian_values_of_notMem {mask : MaskCfg} {w : ℕ} {g : SGrid} {c : C3}
    (h : c ∉ g.active) :
    (Filter.doMedian mask w g).values c = g.values c := by
  simp only [Filter.doMedian]
  rw [if_neg h]

lemma meanLoop_active (mask : MaskCfg) (w : ℕ) (n : ℕ) (g : SGrid) :
    (Filter.meanLoop mask w n g).active = g.active := by
  induction n generalizing g with
  | zero => rfl
  | succ k ih => exact ih (passXZY mask w g)

lemma meanLoop_values_of_notMem (mask : MaskCfg) (w : ℕ) (n : ℕ) (g : SGrid)
    (c : C3) (h : c ∉ g.active) :
    (Filter.meanLoop mask w n g).values c = g.values c := by
  induction n generalizing g with
  | zero => rfl
  | succ k ih =>
      show (Filter.meanLoop mask w k (passXZY mask w g)).values c = _
      rw [ih (passXZY mask w g) h]
      show (boxPass mask 1 w (boxPass mask 2 w (boxPass mask 0 w g))).values c = _
      rw [boxPass_values_of_notMem (show c ∉ (boxPass mask 2 w (boxPass mask 0 w g)).active from h),
        boxPass_values_of_notMem (show c ∉ (boxPass mask 0 w g).active from h),
        boxPass_values_of_notMem h]

lemma gaussInner_active (mask : MaskCfg) (w : ℕ) (m : ℕ) (g : SGrid) :
    (Filter.gaussInner mask w m g).active = g.active := by
  induction m generalizing g with
  | zero => rfl
  | succ k ih => exact ih (passXZY mask w g)

lemma gaussInner_values_of_notMem (mask : MaskCfg) (w : ℕ) (m : ℕ) (g : SGrid)
    (c : C3) (h : c ∉ g.active) :
    (Filter.gaussInner mask w m g).values c = g.values c := by
  induction m generalizing g with
  | zero => rfl
  | succ k ih =>
      show (Filter.gaussInner mask w k (passXZY mask w g)).values c = _
      rw [ih (passXZY mask w g) h]
      show (boxPass mask 1 w (boxPass mask 2 w (boxPass mask 0 w g))).values c = _
      rw [boxPass_values_of_notMem (show c ∉ (boxPass mask 2 w (boxPass mask 0 w g)).active from h),
        boxPass_values_of_notMem (show c ∉ (boxPass mask 0 w g).active from h),
        boxPass_values_of_notMem h]

lemma gaussLoop_active (mask : MaskCfg) (w : ℕ) (n : ℕ) (g : SGrid) :
    (Filter.gaussLoop mask w n g).active = g.active := by
  induction n generalizing g with
  | zero => rfl
  | succ k ih =>
      show (Filter.gaussLoop mask w k (Filter.gaussInner mask w 4 g)).active = g.active
      rw [ih (Filter.gaussInner mask w 4 g), gaussInner_active]

lemma gaussLoop_values_of_notMem (mask : MaskCfg) (w : ℕ) (n : ℕ) (g : SGrid)
    (c : C3) (h : c ∉ g.active) :
    (Filter.gaussLoop mask w n g).values c = g.values c := by
  induction n generalizing g with
  | zero => rfl
  | succ k ih =>
      show (Filter.gaussLoop mask w k (Filter.gaussInner mask w 4 g)).values c = _
      rw [ih (Filter.gaussInner mask w 4 g)
          (by rw [gaussInner_active]; exact h),
        gaussInner_values_of_notMem mask w 4 g c h]

lemma medianLoop_active (mask : MaskCfg) (w : ℕ) (n : ℕ) (g : SGrid) :
    (Filter.medianLoop mask w n g).active = g.active := by
  induction n generalizing g with
  | zero => rfl
  | succ k ih => exact ih (Filter.doMedian mask w g)

lemma medianLoop_values_of_notMem (mask : MaskCfg) (w : ℕ) (n : ℕ) (g : SGrid)
    (c : C3) (h : c ∉ g.active) :
    (Filter.medianLoop mask w n g).values c = g.values c := by
  induction n generalizing g with
  | zero => rfl
  | succ k ih =>
      show (Filter.medianLoop mask w k (Filter.doMedian mask w g)).values c = _
      rw [ih (Filter.doMedian mask w g) h, doMedian_values_of_notMem h]

/-- Claim C10: Filter::mean, Filter::gaussian, Filter::median and
Filter::offset leave the grid's topology — its active voxel set — unchanged,
and modify stored values only at active voxels (every inner loop writes only
at positions delivered by an active-value iterator of an existing leaf). -/
theorem C10_filters_preserve_topology (mask : MaskCfg) (width : ℤ) (n : ℕ)
    (v : ℚ) (g : SGrid) :
    (Filter.mean mask width n g).active = g.active
    ∧ (Filter.gaussian mask width n g).active = g.active
    ∧ (Filter.median mask width n g).active = g.active
    ∧ (Filter.offset mask v g).active = g.active
    ∧ ∀ c, c ∉ g.active →
        (Filter.mean mask width n g).values c = g.values c
        ∧ (Filter.gaussian mask width n g).values c = g.values c
        ∧ (Filter.median mask width n g).values c = g.values c
        ∧ (Filter.offset mask v g).values c = g.values c := by
  refine ⟨meanLoop_active mask _ n g, gaussLoop_active mask _ n g,
    medianLoop_active mask _ n g, rfl, fun c hc => ⟨?_, ?_, ?_, ?_⟩⟩
  · exact meanLoop_values_of_notMem mask _ n g c hc
  · exact gaussLoop_values_of_notMem mask _ n g c hc
  · exact medianLoop_values_of_notMem mask _ n g c hc
  · show (Filter.doOffset mask v g).values c = g.values c
    simp only [Filter.doOffset]
    rw [if_neg hc]

/-- Witness for C10 at an inactive voxel (5,5,5) of the witness grid. -/
theorem C10_filters_witness :
    ((5:ℤ),(5:ℤ),(5:ℤ)) ∉ offsetWitGrid.active
    ∧ ((Filter.mean none 1 1 offsetWitGrid).values ((5:ℤ),(5:ℤ),(5:ℤ))
        = offsetWitGrid.values ((5:ℤ),(5:ℤ),(5:ℤ))
      ∧ (Filter.gaussian none 1 1 offsetWitGrid).values ((5:ℤ),(5:ℤ),(5:ℤ))
        = offsetWitGrid.values ((5:ℤ),(5:ℤ),(5:ℤ))
      ∧ (Filter.median none 1 1 offsetWitGrid).values ((5:ℤ),(5:ℤ),(5:ℤ))
        = offsetWitGrid.values ((5:ℤ),(5:ℤ),(5:ℤ))
      ∧ (Filter.offset none 2 offsetWitGrid).values ((5:ℤ),(5:ℤ),(5:ℤ))
        = offsetWitGrid.values ((5:ℤ),(5:ℤ),(5:ℤ))) :=
  ⟨by decide,
    (C10_filters_preserve_topology none 1 1 2 offsetWitGrid).2.2.2.2
      ((5:ℤ),(5:ℤ),(5:ℤ)) (by decide)⟩

/-! ### The level-set tracker resize contract -/

/-- Modelled from the spec: the observable state of a LevelSetTracker (the
`agents/LevelSetTracker.h` source is not among the provided files; only its
unit tests are): the narrow-band half width in voxels, the transform's voxel
size, and the grid's background value, with the level-set invariant
"background = +W·voxelSize". -/
structure LevelSetTracker where
  halfWidth : ℚ
  voxelSize : ℚ
  background : ℚ

/-- The tracker's getHalfWidth(). -/
def LevelSetTracker.getHalfWidth (t : LevelSetTracker) : ℚ := t.halfWidth

/-- Modelled from the spec: `resize(newHalfWidth)` — "grows or shrinks the
narrow band to newHalfWidth voxels; ... Returns whether any change occurred
(no-op if already at target width with nothing to prune/grow)"; a changed
width re-establishes the invariant background = newHalfWidth·voxelSize. -/
def LevelSetTracker.resize (t : LevelSetTracker) (w : ℚ) : Bool × LevelSetTracker :=
  if w = t.halfWidth then (false, t)
  else (true, { halfWidth := w, voxelSize := t.voxelSize, background := w * t.voxelSize })

/-- Claim C7: resize with the target equal to the current half-width is a
no-op returning false and leaving the state unchanged; resizing to a
strictly larger half-width returns true and sets the background to exactly
newWidth·voxelSize with getHalfWidth() equal to the new width. -/
theorem C7_tracker_resize (t : LevelSetTracker) (w : ℚ) :
    (w = t.halfWidth → t.resize w = (false, t))
    ∧ (t.halfWidth < w →
        (t.resize w).1 = true
        ∧ (t.resize w).2.background = w * t.voxelSize
        ∧ (t.resize w).2.getHalfWidth = w) := by
  constructor
  · intro h
    simp [LevelSetTracker.resize, h]
  · intro h
    have hne : ¬ (w = t.halfWidth) := by
      intro he
      rw [he] at h
      exact lt_irrefl _ h
    simp [LevelSetTracker.resize, hne, LevelSetTracker.getHalfWidth]

/-- The tracker of the resize test scenario: half-width 3, voxel size
1/(128-1), background 3/127. -/
def trackerWit : LevelSetTracker :=
  { halfWidth := 3, voxelSize := 1/127, background := 3/127 }

/-- Witness for C7: resize() to the current width 3 returns false and leaves
the tracker unchanged; resize(4) returns true, sets background to
4·voxelSize and getHalfWidth() to 4. -/
theorem C7_tracker_resize_witness :
    ((3:ℚ) = trackerWit.halfWidth ∧ trackerWit.resize 3 = (false, trackerWit))
    ∧ (trackerWit.halfWidth < 4
      ∧ (trackerWit.resize 4).1 = true
      ∧ (trackerWit.resize 4).2.background = 4 * trackerWit.voxelSize
      ∧ (trackerWit.resize 4).2.getHalfWidth = 4) :=
  ⟨⟨rfl, (C7_tracker_resize trackerWit 3).1 rfl⟩,
   ⟨by norm_num [trackerWit], (C7_tracker_resize trackerWit 4).2 (by norm_num [trackerWit])⟩⟩

/-! ### Point deletion by group membership (`points/PointDelete.h`) -/

/-- A point-data tree at the abstraction level of deleteFromGroups: the
sequence of point indices it stores, and the attribute descriptor's groups:
each group name with the set of points that are members of that group. -/
structure PointDataTree where
  points : List ℕ
  groups : List (String × List ℕ)

/-- Source `Descriptor::hasGroup(name)`. -/
def hasGroup (t : PointDataTree) (name : String) : Bool :=
  t.groups.any (fun g => g.1 == name)

/-- Membership of point p in the named group (false when the group does not
exist, as for a MultiGroupFilter handle that resolves no group). -/
def memberOf (t : PointDataTree) (name : String) (p : ℕ) : Bool :=
  t.groups.any (fun g => g.1 == name && g.2.contains p)

/-- Source `points::deleteFromGroups(tree, groups, invert, drop)` translated from
the source: return unchanged when the tree has no points (no leaf) or when
none of the requested groups exists; otherwise keep exactly the points that
pass the MultiGroupFilter (invert = false: exclude the named groups, so keep
the points belonging to none of them; invert = true: include the named
groups, so keep the points belonging to at least one); finally, when drop is
set and invert is not, drop the requested groups that existed from the
descriptor. -/
def deleteFromGroups (t : PointDataTree) (names : List String)
    (invert : Bool) (drop : Bool) : PointDataTree :=
  if t.points.isEmpty then t
  else
    let availableGroups := names.filter (fun n => hasGroup t n)
    if availableGroups.isEmpty then t
    else
      let keep : ℕ → Bool := fun p =>
        if invert then names.any (fun n => memberOf t n p)
        else ! names.any (fun n => memberOf t n p)
      let remaining := t.points.filter keep
      let groups2 :=
        if drop && !invert then
          t.groups.filter (fun g => ! availableGroups.contains g.1)
        else t.groups
      ⟨remaining, groups2⟩

/-- The 6-point tree of the deletion scenario: points 0..5; group test1
contains points {0,5}, test2 contains {2,3,5}, test3 and test4 exist and are
empty. -/
def pdTree : PointDataTree :=
  ⟨[0, 1, 2, 3, 4, 5],
   [("test1", [0, 5]), ("test2", [2, 3, 5]), ("test3", []), ("test4", [])]⟩

/-- Claim C8: deleteFromGroups on the 6-point tree with groups
{test1, test2, test3}, invert = false and default drop deletes exactly the
points belonging to any of the named groups — points 0, 2, 3, 5 — leaving
exactly the 2 points 1 and 4, and drops the named groups that exist from
the descriptor (test1, test2, test3 absent afterward) while the unlisted
group test4 remains. -/
theorem C8_delete_from_groups :
    (deleteFromGroups pdTree ["test1", "test2", "test3"] false true).points = [1, 4]
    ∧ (deleteFromGroups pdTree ["test1", "test2", "test3"] false true).points.length = 2
    ∧ hasGroup (deleteFromGroups pdTree ["test1", "test2", "test3"] false true) "test1" = false
    ∧ hasGroup (deleteFromGroups pdTree ["test1", "test2", "test3"] false true) "test2" = false
    ∧ hasGroup (deleteFromGroups pdTree ["test1", "test2", "test3"] false true) "test3" = false
    ∧ hasGroup (deleteFromGroups pdTree ["test1", "test2", "test3"] false true) "test4" = true := by
  refine ⟨by decide, by decide, by decide, by decide, by decide, by decide⟩

end OpenVDB
